import Mathlib

/-!
Verification of the `file-system` library (TypeScript) against its
natural-language specification.

The development shallowly embeds the library's `file-system.ts` module
(the `Directory` / `File` classes with `open` / `openFile`), the
`file.ts` stat-flag `File` class and the `file-browser.ts` `FileBrowser`
class.  The host filesystem (Node's `fs` primitives) is modelled as an
explicit state value threaded through every operation; paths are lists
of segments (the result of splitting an absolute path at separators),
and byte contents are lists of naturals.  Host errors other than
"entry absent" (permission failures and the like) are modelled by an
error-injection table carried in the filesystem state, so that
error-propagation behaviour can be stated for arbitrary host failures.

The byte-window behaviour of the `LazyFile` base class comes from the
external `@mjackson/lazy-file` package, which is not part of the
repository's sources; those parts are modelled from the specification's
LazyContent contract (slice clamping, negative indices, streaming the
current window from the source) and are marked as such below.
-/

namespace FsLib

/-- A filesystem path, as the list of its segments from the root
(an absolute path; `[]` is the root directory). -/
abbrev Path := List String

/-- A path segment is valid when it is neither empty nor one of the
two dot navigation segments. -/
def validSeg (s : String) : Bool :=
  s ≠ "" && s ≠ "." && s ≠ ".."

/-- One step of path normalization: empty and current-directory
segments are dropped, a parent segment pops the accumulator, and any
other segment is appended. -/
def resolveStep (acc : List String) (s : String) : List String :=
  if s = "" ∨ s = "." then acc
  else if s = ".." then acc.dropLast
  else acc ++ [s]

/-- Node's `path.resolve` on an absolute input: normalize the segment
list (the working directory is taken to be the root, so relative inputs
resolve against the root). -/
def resolveSegs (p : Path) : Path :=
  p.foldl resolveStep []

/-- Node's `path.basename`: the final segment, or the empty string at
the root. -/
def basename (p : Path) : String :=
  p.getLast?.getD ""

/-- Node's `path.dirname`: the path with the final segment removed. -/
def dirnameP (p : Path) : Path :=
  p.dropLast

/-- Node's `path.join` of a directory path with a single child segment
(empty segments are ignored, as `path.join` does). -/
def joinSeg (p : Path) (n : String) : Path :=
  if n = "" then p else p ++ [n]

theorem resolveSegs_valid (p : Path) : ∀ s ∈ resolveSegs p, validSeg s := by
  suffices h : ∀ acc : List String, (∀ s ∈ acc, validSeg s) →
      ∀ s ∈ p.foldl resolveStep acc, validSeg s by
    exact h [] (by simp)
  induction p with
  | nil => intro acc hacc; simpa using hacc
  | cons x xs ih =>
    intro acc hacc
    simp only [List.foldl_cons]
    refine ih (resolveStep acc x) ?_
    intro s hs
    unfold resolveStep at hs
    split at hs
    · exact hacc s hs
    · split at hs
      · exact hacc s (List.mem_of_mem_dropLast hs)
      · rcases List.mem_append.1 hs with h | h
        · exact hacc s h
        · simp only [List.mem_singleton] at h
          subst h
          rename_i h1 h2
          simp only [validSeg, Bool.and_eq_true, decide_eq_true_eq, ne_eq]
          push_neg at h1
          tauto

theorem resolveSegs_fix (p : Path) (h : ∀ s ∈ p, validSeg s) :
    resolveSegs p = p := by
  suffices hgen : ∀ acc : List String, acc ++ p = p.foldl resolveStep acc from
    (hgen []).symm
  induction p with
  | nil => intro acc; simp
  | cons x xs ih =>
    intro acc
    have hx : validSeg x := h x (by simp)
    have hxs : ∀ s ∈ xs, validSeg s := fun s hs => h s (by simp [hs])
    simp only [List.foldl_cons]
    have hstep : resolveStep acc x = acc ++ [x] := by
      unfold resolveStep
      simp only [validSeg, Bool.and_eq_true, decide_eq_true_eq] at hx
      rw [if_neg (by tauto), if_neg (by tauto)]
    rw [hstep, ← ih hxs (acc ++ [x])]
    simp

theorem resolveSegs_idem (p : Path) :
    resolveSegs (resolveSegs p) = resolveSegs p :=
  resolveSegs_fix _ (resolveSegs_valid p)

theorem joinSeg_dirname_basename (p : Path) (h : ∀ s ∈ p, validSeg s) :
    joinSeg (dirnameP p) (basename p) = p := by
  cases hp : p.reverse with
  | nil =>
    have : p = [] := by simpa using congrArg List.reverse hp
    subst this
    simp [joinSeg, dirnameP, basename]
  | cons x xs =>
    have hpe : p = xs.reverse ++ [x] := by
      have := congrArg List.reverse hp
      simpa using this
    subst hpe
    have hx : validSeg x := h x (by simp)
    have hxne : x ≠ "" := by
      simp only [validSeg, Bool.and_eq_true, decide_eq_true_eq] at hx
      exact hx.1.1
    simp [joinSeg, dirnameP, basename, hxne]

end FsLib

namespace FsLib

/-- The kind of a filesystem entry, as reported by `fs.Stats`. -/
inductive EntryKind where
  | file
  | directory
  | symlink
  | socket
  | fifo
deriving DecidableEq, Repr

/-- An entry of the modelled host filesystem: its kind, its byte
content (empty for non-files) and its modification time. -/
structure FsEntry where
  kind : EntryKind
  data : List Nat
  mtimeMs : Nat
deriving DecidableEq, Repr

/-- The part of `fs.Stats` the library consumes. -/
structure Stats where
  size : Nat
  mtimeMs : Nat
  kind : EntryKind
deriving DecidableEq, Repr

def FsEntry.stats (e : FsEntry) : Stats :=
  ⟨e.data.length, e.mtimeMs, e.kind⟩

/-- The host filesystem state: an association list of entries keyed by
normalized absolute path (its order is the host's directory listing
order), an error-injection table assigning host error codes to paths
(modelling permission failures and other non-ENOENT host errors), and
the host clock used for modification times. -/
structure FS where
  entries : List (Path × FsEntry)
  ioErrors : List (Path × String)
  now : Nat
deriving DecidableEq, Repr

/-- First-match association-list lookup. -/
def lookupA {α : Type} : List (Path × α) → Path → Option α
  | [], _ => none
  | (q, v) :: rest, p => if q = p then some v else lookupA rest p

/-- The injected host error code for a path, if any. -/
def FS.hostErr (fs : FS) (p : Path) : Option String :=
  lookupA fs.ioErrors (resolveSegs p)

/-- The entry stored at a path, if any. -/
def FS.find (fs : FS) (p : Path) : Option FsEntry :=
  lookupA fs.entries (resolveSegs p)

/-- Errors raised by the library or by the host: host `ErrnoException`
values carrying a code, the library's thrown
`Error("<kind> ... does not exist")` (the spec's NotFoundError) and its
`Error("Path ... is not a <kind>")` (the spec's WrongKindError). -/
inductive JsError where
  | errno (code : String)
  | notFoundErr (wanted : EntryKind) (p : Path)
  | wrongKindErr (wanted : EntryKind) (p : Path)
deriving DecidableEq, Repr

/-- Equality of error-or-value results is decidable, so concrete runs
of the model can be checked by evaluation. -/
instance {e a : Type} [DecidableEq e] [DecidableEq a] : DecidableEq (Except e a)
  | .ok x, .ok y =>
    if h : x = y then isTrue (by rw [h])
    else isFalse (by intro hc; cases hc; exact h rfl)
  | .ok _, .error _ => isFalse (by intro hc; cases hc)
  | .error _, .ok _ => isFalse (by intro hc; cases hc)
  | .error x, .error y =>
    if h : x = y then isTrue (by rw [h])
    else isFalse (by intro hc; cases hc; exact h rfl)

/-- Translation of `isNoEntityError`: a host error whose code is
exactly ENOENT; the library's own thrown errors carry no code. -/
def isNoEntityError : JsError → Bool
  | .errno c => c = "ENOENT"
  | _ => false

/-- Translation of `fs.statSync`: an injected host error is raised if
present, otherwise the entry's stats, otherwise ENOENT. -/
def FS.stat (fs : FS) (p : Path) : Except JsError Stats :=
  match fs.hostErr p with
  | some c => .error (.errno c)
  | none =>
    match fs.find p with
    | some e => .ok e.stats
    | none => .error (.errno "ENOENT")

/-- True when a path can be a parent for a file creation: the root
always exists; any other path must be present as a directory. -/
def FS.dirExists (fs : FS) (p : Path) : Bool :=
  p = [] ||
    match lookupA fs.entries (resolveSegs p) with
    | some e => e.kind = EntryKind.directory
    | none => false

/-- Replace the data of an existing entry in place (keeping its
position in the listing order), stamping the current clock. -/
def updateEntry (ents : List (Path × FsEntry)) (p : Path) (e : FsEntry) :
    List (Path × FsEntry) :=
  ents.map fun pe => if pe.1 = p then (p, e) else pe

/-- Remove an entry from the listing. -/
def eraseEntry (ents : List (Path × FsEntry)) (p : Path) :
    List (Path × FsEntry) :=
  ents.filter fun pe => pe.1 ≠ p

/-- Translation of `fs.unlink` (used by `deleteFile`): injected errors
surface; a missing target is ENOENT; a directory target is EISDIR;
otherwise the entry is removed. -/
def FS.unlink (fs : FS) (p : Path) : FS × Except JsError Unit :=
  match fs.hostErr p with
  | some c => (fs, .error (.errno c))
  | none =>
    match fs.find p with
    | some e =>
      if e.kind = EntryKind.directory then (fs, .error (.errno "EISDIR"))
      else ({ fs with entries := eraseEntry fs.entries (resolveSegs p) }, .ok ())
    | none => (fs, .error (.errno "ENOENT"))

/-- The children of a directory path, in listing order, with the kind
metadata a `Dirent` carries. -/
def childrenOf (ents : List (Path × FsEntry)) (p : Path) :
    List (String × EntryKind) :=
  ents.filterMap fun pe =>
    match pe.1.getLast? with
    | some n => if pe.1.dropLast = p then some (n, pe.2.kind) else none
    | none => none

/-- Translation of `fs.readdirSync(path, { withFileTypes: true })`. -/
def FS.readdir (fs : FS) (p : Path) : Except JsError (List (String × EntryKind)) :=
  match fs.hostErr p with
  | some c => .error (.errno c)
  | none =>
    match fs.find p with
    | some e =>
      if e.kind = EntryKind.directory then .ok (childrenOf fs.entries (resolveSegs p))
      else .error (.errno "ENOTDIR")
    | none => .error (.errno "ENOENT")

/-- Translation of the byte-range read built on `fs.createReadStream`
(`readFile` in the source, drained): the bytes of `[s, e)` of the
file's current content; reading a vanished file raises ENOENT. -/
def FS.readRange (fs : FS) (p : Path) (s e : Nat) : Except JsError (List Nat) :=
  match fs.hostErr p with
  | some c => .error (.errno c)
  | none =>
    match fs.find p with
    | some ent =>
      if ent.kind = EntryKind.file then .ok ((ent.data.drop s).take (e - s))
      else .error (.errno "EISDIR")
    | none => .error (.errno "ENOENT")

/-- Helper for recursive directory creation: walk the ancestor chain
top-down, creating each absent segment as a directory; an ancestor that
exists as a non-directory is the host's ENOTDIR failure. -/
def mkdirGo (fs : FS) : List Path → FS × Except JsError Unit
  | [] => (fs, .ok ())
  | q :: rest =>
    match lookupA fs.entries q with
    | some e =>
      if e.kind = EntryKind.directory then mkdirGo fs rest
      else (fs, .error (.errno "ENOTDIR"))
    | none =>
      mkdirGo
        { fs with entries := fs.entries ++ [(q, ⟨EntryKind.directory, [], fs.now⟩)] }
        rest

/-- The chain of ancestors of a path, shortest first, ending with the
path itself. -/
def ancestorChain (p : Path) : List Path :=
  (List.range p.length).map fun i => p.take (i + 1)

/-- Translation of `fs.mkdirSync(path, { recursive: true })`. -/
def FS.mkdirRec (fs : FS) (p : Path) : FS × Except JsError Unit :=
  match fs.hostErr p with
  | some c => (fs, .error (.errno c))
  | none => mkdirGo fs (ancestorChain (resolveSegs p))

/-- Translation of the write path: `fs.createWriteStream` opens (and
creates or truncates) the destination, then the incoming chunk sequence
is pumped into it; an error while pulling chunks destroys the stream,
leaving the destination as the host left it (modelled as truncated).
`data` is the outcome of draining the incoming stream. -/
def FS.writeAll (fs : FS) (p : Path) (data : Except JsError (List Nat)) :
    FS × Except JsError Unit :=
  match fs.hostErr p with
  | some c => (fs, .error (.errno c))
  | none =>
    match lookupA fs.entries (resolveSegs p) with
    | some e =>
      if e.kind = EntryKind.file then
        match data with
        | .ok bs =>
          ({ fs with
              entries := updateEntry fs.entries (resolveSegs p) ⟨EntryKind.file, bs, fs.now⟩ },
            .ok ())
        | .error err =>
          ({ fs with
              entries := updateEntry fs.entries (resolveSegs p) ⟨EntryKind.file, [], fs.now⟩ },
            .error err)
      else (fs, .error (.errno "EISDIR"))
    | none =>
      if resolveSegs p ≠ [] && fs.dirExists (dirnameP (resolveSegs p)) then
        match data with
        | .ok bs =>
          ({ fs with
              entries := fs.entries ++ [(resolveSegs p, ⟨EntryKind.file, bs, fs.now⟩)] },
            .ok ())
        | .error err =>
          ({ fs with
              entries := fs.entries ++ [(resolveSegs p, ⟨EntryKind.file, [], fs.now⟩)] },
            .error err)
      else (fs, .error (.errno "ENOENT"))

end FsLib

namespace FsLib

/-- The replacement character a text decoder substitutes for invalid
byte sequences. -/
def replChar : Char := Char.ofNat 0xFFFD

/-- True for a UTF-8 continuation byte. -/
def contByte (b : Nat) : Bool := 0x80 ≤ b && b < 0xC0

/-- A UTF-8 decoder (the host's `TextDecoder`): decodes well-formed
sequences and substitutes the replacement character elsewhere.  The
fuel argument (any upper bound on the list length) makes the recursion
structural. -/
def utf8DecodeAux : Nat → List Nat → List Char
  | _, [] => []
  | 0, _ => []
  | fuel + 1, b1 :: rest =>
    if b1 < 0x80 then Char.ofNat b1 :: utf8DecodeAux fuel rest
    else if 0xC0 ≤ b1 && b1 < 0xE0 then
      match rest with
      | b2 :: rest2 =>
        if contByte b2 then
          Char.ofNat ((b1 - 0xC0) * 0x40 + (b2 - 0x80)) :: utf8DecodeAux fuel rest2
        else replChar :: utf8DecodeAux fuel rest
      | [] => [replChar]
    else if 0xE0 ≤ b1 && b1 < 0xF0 then
      match rest with
      | b2 :: b3 :: rest3 =>
        if contByte b2 && contByte b3 then
          Char.ofNat ((b1 - 0xE0) * 0x1000 + (b2 - 0x80) * 0x40 + (b3 - 0x80)) ::
            utf8DecodeAux fuel rest3
        else replChar :: utf8DecodeAux fuel rest
      | _ => [replChar]
    else if 0xF0 ≤ b1 && b1 < 0xF8 then
      match rest with
      | b2 :: b3 :: b4 :: rest4 =>
        if contByte b2 && contByte b3 && contByte b4 then
          Char.ofNat
              ((b1 - 0xF0) * 0x40000 + (b2 - 0x80) * 0x1000 +
                (b3 - 0x80) * 0x40 + (b4 - 0x80)) ::
            utf8DecodeAux fuel rest4
        else replChar :: utf8DecodeAux fuel rest
      | _ => [replChar]
    else replChar :: utf8DecodeAux fuel rest

/-- Decode a byte list as UTF-8 text. -/
def utf8Decode (bs : List Nat) : String :=
  ⟨utf8DecodeAux bs.length bs⟩

/-- Modelled from the spec: the external MIME lookup (`mrmime`'s
`lookup`), a pure table from the filename extension that the spec
scopes out; only the extensions the fixtures use are tabulated, and no
claim inspects the resulting `type` value. -/
def strHasSuffix (s suffix : List Char) : Bool :=
  decide (suffix.length ≤ s.length) &&
    decide (s.drop (s.length - suffix.length) = suffix)

def mimeLookup (name : String) : Option String :=
  if strHasSuffix name.data ".txt".data then some "text/plain"
  else if strHasSuffix name.data ".json".data then some "application/json"
  else none

end FsLib

namespace FsLib

/-- Translation of `OpenOptions` (`autoCreate?: boolean`). -/
structure OpenOptions where
  autoCreate : Option Bool := none
deriving DecidableEq, Repr

/-- Translation of the `Directory` class: its only stored state is the
private `#path` field, set once in the constructor. -/
structure Directory where
  path : Path
deriving DecidableEq, Repr

/-- Translation of the `Directory` constructor: `path.resolve` the
given name and store it. -/
def Directory.ofName (name : Path) : Directory :=
  ⟨resolveSegs name⟩

/-- Translation of the `dirname` getter. -/
def Directory.dirname (d : Directory) : Path :=
  dirnameP d.path

/-- Translation of the `name` getter. -/
def Directory.dirNameOf (d : Directory) : String :=
  basename d.path

/-- Translation of `Directory.open`: stat; on ENOENT either create
recursively and re-stat (default) or throw the does-not-exist error;
then require a directory. -/
def Directory.openDir (fs : FS) (name : Path) (options : OpenOptions) :
    FS × Except JsError Directory :=
  match fs.stat name with
  | .ok stats =>
    (fs,
      if stats.kind = EntryKind.directory then .ok (Directory.ofName name)
      else .error (.wrongKindErr EntryKind.directory name))
  | .error e =>
    if ¬ isNoEntityError e then (fs, .error e)
    else if options.autoCreate.getD true then
      match fs.mkdirRec name with
      | (fs1, .error e1) => (fs1, .error e1)
      | (fs1, .ok _) =>
        match fs1.stat name with
        | .ok stats =>
          (fs1,
            if stats.kind = EntryKind.directory then .ok (Directory.ofName name)
            else .error (.wrongKindErr EntryKind.directory name))
        | .error e1 => (fs1, .error e1)
    else (fs, .error (.notFoundErr EntryKind.directory name))

/-- The lazy byte source `createFile` builds: the captured filename
closure plus the byte length taken from the stat. -/
structure ContentSrc where
  filename : Path
  byteLength : Nat
deriving DecidableEq, Repr

/-- Translation of the `File` class (a `LazyFile` subclass): the
resolved `#path`, the name the superclass derives from it, the MIME
`type`, `lastModified`, and the lazy content with its current byte
window `[rangeStart, rangeEnd)` over the source.  The window fields are
modelled from the spec's LazyContent contract (the superclass lives in
the external lazy-file package). -/
structure File where
  path : Path
  name : String
  type : Option String
  lastModified : Nat
  src : ContentSrc
  rangeStart : Nat
  rangeEnd : Nat
deriving DecidableEq, Repr

/-- The current window length (`Blob.size` / the spec's
`byteLength`). -/
def File.byteLength (f : File) : Nat :=
  f.rangeEnd - f.rangeStart

/-- Translation of `createFile`: a `File` over a lazy content whose
length is the stat's size, reading from the captured filename; the
constructor resolves the path, takes the basename as the name and the
MIME lookup as the type. -/
def createFile (filename : Path) (stats : Stats) : File :=
  let resolved := resolveSegs filename
  { path := resolved
    name := basename resolved
    type := mimeLookup (basename resolved)
    lastModified := stats.mtimeMs
    src := ⟨filename, stats.size⟩
    rangeStart := 0
    rangeEnd := stats.size }

/-- Modelled from the spec: index clamping of the LazyContent `slice`
contract (the lazy-file superclass) — negative indices count from the
end of the current window and results are clamped to
`[0, byteLength]`. -/
def clampIdx (i : Int) (size : Nat) : Nat :=
  if i < 0 then ((size : Int) + i).toNat else min i.toNat size

/-- Translation of `File.slice`: the superclass slice narrows the
current window (modelled from the spec's LazyContent contract), and the
result is wrapped in a new `File` keeping `this.path` (hence the same
name after re-resolution) with the passed content type; the fresh
object's `lastModified` defaults (the host clock at slice time is
modelled as 0, no claim observes it). -/
def File.slice (f : File) (relStart relEnd : Option Int)
    (contentType : Option String) : File :=
  let size := f.byteLength
  let rs := clampIdx (relStart.getD 0) size
  let re := clampIdx (relEnd.getD (size : Int)) size
  let span := re - rs
  let resolved := resolveSegs f.path
  { path := resolved
    name := basename resolved
    type := contentType
    lastModified := 0
    src := f.src
    rangeStart := f.rangeStart + rs
    rangeEnd := f.rangeStart + rs + span }

/-- Translation of draining `stream()` (and hence `bytes()`): the
window is read from the source at access time. -/
def File.bytes (fs : FS) (f : File) : Except JsError (List Nat) :=
  fs.readRange f.src.filename f.rangeStart f.rangeEnd

/-- Translation of `text()`: the drained bytes, UTF-8 decoded. -/
def File.text (fs : FS) (f : File) : Except JsError String :=
  (File.bytes fs f).map utf8Decode

/-- Translation of the `dirname` getter of `File`. -/
def File.dirname (f : File) : Path :=
  dirnameP f.path

/-- Translation of `File.open` (exported as `openFile`): stat; on
ENOENT either `writeFileSync(name, "")` and re-stat (default) or throw
the does-not-exist error; then require a regular file. -/
def File.openFile (fs : FS) (name : Path) (options : OpenOptions) :
    FS × Except JsError File :=
  match fs.stat name with
  | .ok stats =>
    (fs,
      if stats.kind = EntryKind.file then .ok (createFile name stats)
      else .error (.wrongKindErr EntryKind.file name))
  | .error e =>
    if ¬ isNoEntityError e then (fs, .error e)
    else if options.autoCreate.getD true then
      match fs.writeAll name (.ok []) with
      | (fs1, .error e1) => (fs1, .error e1)
      | (fs1, .ok _) =>
        match fs1.stat name with
        | .ok stats =>
          (fs1,
            if stats.kind = EntryKind.file then .ok (createFile name stats)
            else .error (.wrongKindErr EntryKind.file name))
        | .error e1 => (fs1, .error e1)
    else (fs, .error (.notFoundErr EntryKind.file name))

/-- Translation of `deleteFile` (a promisified `fs.unlink`). -/
def deleteFile (fs : FS) (filename : Path) : FS × Except JsError Unit :=
  fs.unlink filename

/-- Translation of `File.delete`. -/
def File.deleteSelf (fs : FS) (f : File) : FS × Except JsError Unit :=
  deleteFile fs f.path

/-- Translation of `Directory.subdir`: stat the joined child path; a
directory yields a handle, any other kind yields null; ENOENT is
converted to null and every other error re-thrown. -/
def Directory.subdir (fs : FS) (d : Directory) (name : String) :
    Except JsError (Option Directory) :=
  match fs.stat (joinSeg d.path name) with
  | .ok stats =>
    .ok (if stats.kind = EntryKind.directory then
          some (Directory.ofName (joinSeg d.path name))
        else none)
  | .error e =>
    if isNoEntityError e then .ok none else .error e

/-- Translation of `Directory.file`: stat the joined child path; a
regular file yields a handle, any other kind yields null; ENOENT is
converted to null and every other error re-thrown. -/
def Directory.childFile (fs : FS) (d : Directory) (name : String) :
    Except JsError (Option File) :=
  match fs.stat (joinSeg d.path name) with
  | .ok stats =>
    .ok (if stats.kind = EntryKind.file then
          some (createFile (joinSeg d.path name) stats)
        else none)
  | .error e =>
    if isNoEntityError e then .ok none else .error e

/-- Translation of `Directory.entries`: a fresh
`readdirSync(path, { withFileTypes: true })` on every call. -/
def Directory.entries (fs : FS) (d : Directory) :
    Except JsError (List (String × EntryKind)) :=
  fs.readdir d.path

/-- Translation of the `/.*/` default filter argument of `files` and
`subdirs`: that regular expression matches every name. -/
def defaultFilter : String → Bool := fun _ => true

/-- Translation of `Directory.subdirs`: walk the entries, yielding a
handle for each directory entry whose name the filter accepts. -/
def Directory.subdirs (fs : FS) (d : Directory) (filter : String → Bool) :
    Except JsError (List Directory) :=
  (Directory.entries fs d).map fun ents =>
    ents.filterMap fun nk =>
      if nk.2 = EntryKind.directory && filter nk.1 then
        some (Directory.ofName (joinSeg d.path nk.1))
      else none

/-- The body of the `files` generator: for each listed entry that is a
regular file with an accepted name, an extra `statSync` on the joined
path feeds `createFile`; a stat failure is thrown out of the iteration.
The stat runs against `fsStat`, which models the filesystem as it
stands when the generator reaches that entry (it equals the listing
state unless a concurrent change intervened). -/
def filesGo (fsStat : FS) (dpath : Path) (filter : String → Bool) :
    List (String × EntryKind) → Except JsError (List File)
  | [] => .ok []
  | nk :: rest =>
    if nk.2 = EntryKind.file && filter nk.1 then
      match fsStat.stat (joinSeg dpath nk.1) with
      | .error e => .error e
      | .ok stats =>
        (filesGo fsStat dpath filter rest).map (createFile (joinSeg dpath nk.1) stats :: ·)
    else filesGo fsStat dpath filter rest

/-- Translation of `Directory.files` with the listing and the per-entry
stats possibly observing different filesystem states (the generator is
lazy, so the filesystem can change between the listing and a pull). -/
def Directory.filesWith (fsList fsStat : FS) (d : Directory)
    (filter : String → Bool) : Except JsError (List File) :=
  match Directory.entries fsList d with
  | .error e => .error e
  | .ok ents => filesGo fsStat d.path filter ents

/-- Translation of `Directory.files` when no concurrent modification
intervenes: listing and stats observe the same state. -/
def Directory.files (fs : FS) (d : Directory) (filter : String → Bool) :
    Except JsError (List File) :=
  Directory.filesWith fs fs d filter

/-- Translation of `Directory.write`: pump the file's stream into a
write sink at the joined path (under the file's own base name), then
re-open the child through `this.file` (the source casts the possibly
null result). -/
def Directory.write (fs : FS) (d : Directory) (file : File) :
    FS × Except JsError (Option File) :=
  match fs.writeAll (joinSeg d.path file.name) (File.bytes fs file) with
  | (fs1, .error e) => (fs1, .error e)
  | (fs1, .ok _) =>
    match Directory.childFile fs1 d file.name with
    | .ok v => (fs1, .ok v)
    | .error e => (fs1, .error e)

/-- Translation of `File.save`: `open(this.dirname)` with default
options (auto-creating a missing parent), then `write(this)`. -/
def File.save (fs : FS) (f : File) : FS × Except JsError (Option File) :=
  match Directory.openDir fs (File.dirname f) {} with
  | (fs1, .error e) => (fs1, .error e)
  | (fs1, .ok dir) => Directory.write fs1 dir f

end FsLib

namespace Browser

open FsLib

/-- Translation of `FileProps` from `file.ts`: the optional stat-flag
and metadata bag captured at construction. -/
structure FileProps where
  dirname : Option Path := none
  isDirectory : Option Bool := none
  isFIFO : Option Bool := none
  isFile : Option Bool := none
  isSocket : Option Bool := none
  isSymbolicLink : Option Bool := none
  lastModified : Option Nat := none
  type : Option (Option String) := none
deriving DecidableEq, Repr

/-- Translation of the `File` class of `file.ts`: a `LazyFile` with the
stored props bag; the getters below read the bag with its defaults.
The byte window `[rangeStart, rangeEnd)` over the content source is
modelled from the spec's LazyContent contract (the superclass lives in
the external lazy-file package; constructed without an explicit range,
it covers the whole source). -/
structure BFile where
  content : ContentSrc
  name : String
  props : FileProps
  rangeStart : Nat
  rangeEnd : Nat
deriving DecidableEq, Repr

def BFile.dirname (f : BFile) : Path := f.props.dirname.getD []
def BFile.isDirectory (f : BFile) : Bool := f.props.isDirectory.getD false
def BFile.isFIFO (f : BFile) : Bool := f.props.isFIFO.getD false
def BFile.isFile (f : BFile) : Bool := f.props.isFile.getD false
def BFile.isSocket (f : BFile) : Bool := f.props.isSocket.getD false
def BFile.isSymbolicLink (f : BFile) : Bool := f.props.isSymbolicLink.getD false

/-- Translation of the `FileBrowser` class state: the stored directory
path (kept as given, not resolved). -/
structure FileBrowser where
  directory : Path
deriving DecidableEq, Repr

/-- Translation of `FileBrowser.get`: stat the joined path; on success
build a `File` whose kind flags are booleans captured from the stat,
whatever the entry's kind; ENOENT yields null and any other error is
re-thrown. -/
def FileBrowser.get (fs : FS) (b : FileBrowser) (filename : String) :
    Except JsError (Option BFile) :=
  match fs.stat (joinSeg b.directory filename) with
  | .ok stat =>
    .ok (some
      { content := ⟨joinSeg b.directory filename, stat.size⟩
        name := filename
        props :=
          { dirname := some b.directory
            isDirectory := some (stat.kind = EntryKind.directory)
            isFIFO := some (stat.kind = EntryKind.fifo)
            isFile := some (stat.kind = EntryKind.file)
            isSocket := some (stat.kind = EntryKind.socket)
            isSymbolicLink := some (stat.kind = EntryKind.symlink)
            lastModified := some stat.mtimeMs
            type := some (mimeLookup filename) }
        rangeStart := 0
        rangeEnd := stat.size })
  | .error e =>
    if isNoEntityError e then .ok none else .error e

end Browser

namespace FsLib

/-! Association-list lemmas used throughout. -/

theorem lookupA_append_left {α : Type} {l : List (Path × α)} {q : Path} {v : α}
    (h : lookupA l q = some v) (l2 : List (Path × α)) :
    lookupA (l ++ l2) q = some v := by
  induction l with
  | nil => simp [lookupA] at h
  | cons pe rest ih =>
    obtain ⟨p1, v1⟩ := pe
    simp only [lookupA, List.cons_append] at h ⊢
    split at h
    · rw [if_pos (by assumption)]
      exact h
    · rw [if_neg (by assumption)]
      exact ih h

theorem lookupA_append_of_none {α : Type} {l : List (Path × α)} {q : Path}
    (h : lookupA l q = none) (l2 : List (Path × α)) :
    lookupA (l ++ l2) q = lookupA l2 q := by
  induction l with
  | nil => simp
  | cons pe rest ih =>
    obtain ⟨p1, v1⟩ := pe
    simp only [lookupA, List.cons_append] at h ⊢
    split at h
    · exact absurd h (by simp)
    · rw [if_neg (by assumption)]
      exact ih h

theorem lookupA_singleton_self {α : Type} (q : Path) (v : α) :
    lookupA [(q, v)] q = some v := by
  simp [lookupA]

theorem lookupA_erase_self (ents : List (Path × FsEntry)) (q : Path) :
    lookupA (eraseEntry ents q) q = none := by
  induction ents with
  | nil => rfl
  | cons pe rest ih =>
    obtain ⟨p1, v1⟩ := pe
    by_cases hq : p1 = q
    · subst hq
      simpa [eraseEntry, List.filter_cons] using ih
    · simpa [eraseEntry, List.filter_cons, hq, lookupA] using ih

/-! Theorems for the claims. -/

/-- C5: for every Directory or File handle, `path == join(dirname, name)`
holds; `path` is computed exactly once at construction, by resolving the
input path, and `name` and `dirname` are pure functions of the stored
`path`, so they never consult the live filesystem and stay the same
values however the filesystem later changes. -/
theorem c5_handle_path_invariant (input : Path) (stats : Stats) :
    (Directory.ofName input).path = resolveSegs input ∧
    joinSeg (Directory.dirname (Directory.ofName input))
        (Directory.dirNameOf (Directory.ofName input)) =
      (Directory.ofName input).path ∧
    (createFile input stats).path = resolveSegs input ∧
    joinSeg (File.dirname (createFile input stats))
        (createFile input stats).name =
      (createFile input stats).path := by
  refine ⟨rfl, ?_, rfl, ?_⟩
  · exact joinSeg_dirname_basename _ (resolveSegs_valid input)
  · exact joinSeg_dirname_basename _ (resolveSegs_valid input)

/-- C3: `file(name)` and `subdir(name)` never throw when the child is
merely absent (stat fails with the host's not-found error) or of the
wrong kind: both cases return the null sentinel; every stat failure
other than not-found propagates unchanged. -/
theorem c3_child_lookup_sentinel (fs : FS) (d : Directory) (n : String) :
    (∀ e, fs.stat (joinSeg d.path n) = .error e → isNoEntityError e = true →
      Directory.childFile fs d n = .ok none ∧ Directory.subdir fs d n = .ok none) ∧
    (∀ st, fs.stat (joinSeg d.path n) = .ok st →
      (st.kind ≠ EntryKind.file → Directory.childFile fs d n = .ok none) ∧
      (st.kind ≠ EntryKind.directory → Directory.subdir fs d n = .ok none)) ∧
    (∀ e, fs.stat (joinSeg d.path n) = .error e → isNoEntityError e = false →
      Directory.childFile fs d n = .error e ∧ Directory.subdir fs d n = .error e) := by
  refine ⟨?_, ?_, ?_⟩
  · intro e he hno
    unfold Directory.childFile Directory.subdir
    rw [he]
    simp [hno]
  · intro st hst
    constructor
    · intro hk
      unfold Directory.childFile
      rw [hst]
      simp [hk]
    · intro hk
      unfold Directory.subdir
      rw [hst]
      simp [hk]
  · intro e he hno
    unfold Directory.childFile Directory.subdir
    rw [he]
    simp [hno]

/-- Witness for C3 on a concrete filesystem: a wrong-kind child and an
absent child give the null sentinel, and an injected permission error
propagates unchanged. -/
theorem c3_witness :
    Directory.childFile
        ⟨[(["a"], ⟨EntryKind.directory, [], 5⟩), (["a", "sub"], ⟨EntryKind.directory, [], 5⟩)],
          [], 9⟩
        (Directory.ofName ["a"]) "sub" = .ok none ∧
    Directory.subdir
        ⟨[(["a"], ⟨EntryKind.directory, [], 5⟩)], [], 9⟩
        (Directory.ofName ["a"]) "nope" = .ok none ∧
    Directory.childFile
        ⟨[(["a"], ⟨EntryKind.directory, [], 5⟩)], [(["a", "p"], "EACCES")], 9⟩
        (Directory.ofName ["a"]) "p" = .error (.errno "EACCES") := by
  refine ⟨?_, ?_, ?_⟩
  · exact ((c3_child_lookup_sentinel _ _ _).2.1 ⟨0, 5, EntryKind.directory⟩
      (by decide)).1 (by decide)
  · exact ((c3_child_lookup_sentinel _ _ _).1 (.errno "ENOENT") (by decide) (by decide)).2
  · exact ((c3_child_lookup_sentinel _ _ _).2.2 (.errno "EACCES") (by decide) (by decide)).1

/-- C6: when the stat of the target succeeds and the entry's kind does
not match what was requested, `open` and `openFile` fail with the
wrong-kind error and return no handle. -/
theorem c6_wrong_kind (fs : FS) (p : Path) (opts : OpenOptions) (st : Stats)
    (h : fs.stat p = .ok st) :
    (st.kind ≠ EntryKind.directory →
      Directory.openDir fs p opts = (fs, .error (.wrongKindErr EntryKind.directory p))) ∧
    (st.kind ≠ EntryKind.file →
      File.openFile fs p opts = (fs, .error (.wrongKindErr EntryKind.file p))) := by
  constructor
  · intro hk
    unfold Directory.openDir
    rw [h]
    simp [hk]
  · intro hk
    unfold File.openFile
    rw [h]
    simp [hk]

/-- Witness for C6: on a concrete filesystem, opening a file path as a
directory and a directory path as a file both fail with the wrong-kind
error. -/
theorem c6_witness :
    Directory.openDir
        ⟨[(["a"], ⟨EntryKind.file, [1], 5⟩)], [], 9⟩ ["a"] {} =
      (⟨[(["a"], ⟨EntryKind.file, [1], 5⟩)], [], 9⟩,
        .error (.wrongKindErr EntryKind.directory ["a"])) ∧
    File.openFile
        ⟨[(["b"], ⟨EntryKind.directory, [], 5⟩)], [], 9⟩ ["b"] {} =
      (⟨[(["b"], ⟨EntryKind.directory, [], 5⟩)], [], 9⟩,
        .error (.wrongKindErr EntryKind.file ["b"])) := by
  constructor
  · exact (c6_wrong_kind _ _ _ ⟨1, 5, EntryKind.file⟩ (by decide)).1 (by decide)
  · exact (c6_wrong_kind _ _ _ ⟨0, 5, EntryKind.directory⟩ (by decide)).2 (by decide)

/-- C7: `delete()` removes the file at `f.path` (afterwards the path no
longer resolves); deleting an already absent file fails with the host's
not-found error; any other injected host error is surfaced unchanged;
and in every case the handle itself is an immutable value whose fields
(`path`, `name`, `dirname`, content window) are untouched — the
operation returns only a new filesystem state and never a modified
handle. -/
theorem c7_delete_file (fs : FS) (f : File) :
    (∀ ent, fs.hostErr f.path = none → fs.find f.path = some ent →
      ent.kind ≠ EntryKind.directory →
      File.deleteSelf fs f =
        ({ fs with entries := eraseEntry fs.entries (resolveSegs f.path) }, .ok ()) ∧
      (File.deleteSelf fs f).1.find f.path = none) ∧
    (fs.hostErr f.path = none → fs.find f.path = none →
      File.deleteSelf fs f = (fs, .error (.errno "ENOENT"))) ∧
    (∀ c, fs.hostErr f.path = some c →
      File.deleteSelf fs f = (fs, .error (.errno c))) := by
  refine ⟨?_, ?_, ?_⟩
  · intro ent herr hfind hk
    have hdel : File.deleteSelf fs f =
        ({ fs with entries := eraseEntry fs.entries (resolveSegs f.path) }, .ok ()) := by
      unfold File.deleteSelf deleteFile FS.unlink
      rw [herr, hfind]
      simp [hk]
    refine ⟨hdel, ?_⟩
    rw [hdel]
    exact lookupA_erase_self _ _
  · intro herr hfind
    unfold File.deleteSelf deleteFile FS.unlink
    rw [herr, hfind]
  · intro c herr
    unfold File.deleteSelf deleteFile FS.unlink
    rw [herr]

/-- Witness for C7: deleting an existing file removes exactly its
entry; deleting it again from the resulting state fails with the
not-found error; an injected failure surfaces unchanged. -/
theorem c7_witness :
    File.deleteSelf
        ⟨[(["a"], ⟨EntryKind.directory, [], 5⟩), (["a", "x"], ⟨EntryKind.file, [1, 2], 7⟩)],
          [], 9⟩
        (createFile ["a", "x"] ⟨2, 7, EntryKind.file⟩) =
      (⟨[(["a"], ⟨EntryKind.directory, [], 5⟩)], [], 9⟩, .ok ()) ∧
    File.deleteSelf ⟨[(["a"], ⟨EntryKind.directory, [], 5⟩)], [], 9⟩
        (createFile ["a", "x"] ⟨2, 7, EntryKind.file⟩) =
      (⟨[(["a"], ⟨EntryKind.directory, [], 5⟩)], [], 9⟩, .error (.errno "ENOENT")) ∧
    File.deleteSelf ⟨[(["a", "x"], ⟨EntryKind.file, [1], 7⟩)], [(["a", "x"], "EPERM")], 9⟩
        (createFile ["a", "x"] ⟨1, 7, EntryKind.file⟩) =
      (⟨[(["a", "x"], ⟨EntryKind.file, [1], 7⟩)], [(["a", "x"], "EPERM")], 9⟩,
        .error (.errno "EPERM")) := by
  refine ⟨?_, ?_, ?_⟩
  · have h := ((c7_delete_file
      ⟨[(["a"], ⟨EntryKind.directory, [], 5⟩), (["a", "x"], ⟨EntryKind.file, [1, 2], 7⟩)],
        [], 9⟩
      (createFile ["a", "x"] ⟨2, 7, EntryKind.file⟩)).1 ⟨EntryKind.file, [1, 2], 7⟩
      (by decide) (by decide) (by decide)).1
    rw [h]
    decide
  · exact (c7_delete_file _ _).2.1 (by decide) (by decide)
  · exact (c7_delete_file _ _).2.2 "EPERM" (by decide)

/-- C1: slicing a slice composes: for a source-backed file handle and
indices `0 <= a <= b <= c <= d <= byteLength`, the handle
`f.slice(a,d).slice(b-a,c-a)` is the same value as `f.slice(b,c)` —
in particular its read window is exactly the composed `[b,c)` window,
so it never touches bytes outside it — and therefore the two yield the
same bytes against every filesystem state. -/
theorem c1_slice_composition (f : File) (a b c d : Int)
    (h0 : 0 ≤ a) (hab : a ≤ b) (hbc : b ≤ c) (hcd : c ≤ d)
    (_hd : d ≤ (f.byteLength : Int)) :
    (f.slice (some a) (some d) none).slice (some (b - a)) (some (c - a)) none =
      f.slice (some b) (some c) none ∧
    ∀ fs : FS,
      File.bytes fs
          ((f.slice (some a) (some d) none).slice (some (b - a)) (some (c - a)) none) =
        File.bytes fs (f.slice (some b) (some c) none) := by
  have hrec : (f.slice (some a) (some d) none).slice (some (b - a)) (some (c - a)) none =
      f.slice (some b) (some c) none := by
    simp only [File.slice, File.byteLength, clampIdx, Option.getD_some]
    rw [resolveSegs_idem]
    simp only [File.mk.injEq, true_and, and_true]
    split_ifs <;> omega
  exact ⟨hrec, fun fs => by rw [hrec]⟩

/-- Witness for C1 at a five-byte file with `a,b,c,d = 1,2,3,4`. -/
theorem c1_witness :
    (0 : Int) ≤ 1 ∧ (1 : Int) ≤ 2 ∧ (2 : Int) ≤ 3 ∧ (3 : Int) ≤ 4 ∧
      (4 : Int) ≤ ((createFile ["a", "x.txt"] ⟨5, 7, EntryKind.file⟩).byteLength : Int) ∧
    ((createFile ["a", "x.txt"] ⟨5, 7, EntryKind.file⟩).slice (some 1) (some 4) none).slice
        (some 1) (some 2) none =
      (createFile ["a", "x.txt"] ⟨5, 7, EntryKind.file⟩).slice (some 2) (some 3) none := by
  refine ⟨by decide, by decide, by decide, by decide, by decide, ?_⟩
  have h := (c1_slice_composition (createFile ["a", "x.txt"] ⟨5, 7, EntryKind.file⟩)
    1 2 3 4 (by decide) (by decide) (by decide) (by decide) (by decide)).1
  simpa using h

/-- Counterexample for C2 as frozen: the claim quantifies over every
path that does not exist, but when the parent directory is missing too
`writeFileSync(name, "")` throws the host's ENOENT inside `File.open`
and the exception propagates uncaught — no file is created and no
handle returned.  Concretely, on an empty filesystem, opening
`["a", "new.txt"]` (whose parent `["a"]` does not exist) with default
options yields the ENOENT error and leaves the path absent. -/
theorem c2_counterexample :
    File.openFile ⟨[], [], 9⟩ ["a", "new.txt"] {} =
      ((⟨[], [], 9⟩ : FS), .error (.errno "ENOENT")) ∧
    (File.openFile ⟨[], [], 9⟩ ["a", "new.txt"] {}).1.find ["a", "new.txt"] = none := by
  decide

/-- C2, amended as the counterexample forces: opening a missing,
creatable file path — a non-root path whose parent directory exists —
with default options creates an empty regular file there and returns a
handle for it, whose `text()` reads back the empty string; with
auto-create disabled it fails with the does-not-exist error and the
filesystem is unchanged.  (The creation uses `writeFileSync`, which
itself fails with ENOENT when the parent is missing, hence the
creatable-path restriction.) -/
theorem c2_openfile_autocreate (fs : FS) (p : Path)
    (herr : fs.hostErr p = none)
    (habsent : fs.find p = none)
    (hne : resolveSegs p ≠ [])
    (hparent : fs.dirExists (dirnameP (resolveSegs p)) = true) :
    File.openFile fs p {} =
      ({ fs with
          entries := fs.entries ++ [(resolveSegs p, ⟨EntryKind.file, [], fs.now⟩)] },
        .ok (createFile p ⟨0, fs.now, EntryKind.file⟩)) ∧
    (File.openFile fs p {}).1.find p = some ⟨EntryKind.file, [], fs.now⟩ ∧
    File.text (File.openFile fs p {}).1 (createFile p ⟨0, fs.now, EntryKind.file⟩) =
      .ok "" ∧
    File.openFile fs p ⟨some false⟩ = (fs, .error (.notFoundErr EntryKind.file p)) := by
  have herr' : lookupA fs.ioErrors (resolveSegs p) = none := herr
  have habsent' : lookupA fs.entries (resolveSegs p) = none := habsent
  have hstat : fs.stat p = .error (.errno "ENOENT") := by
    unfold FS.stat
    rw [herr, habsent]
  have hwrite : fs.writeAll p (.ok []) =
      ({ fs with
          entries := fs.entries ++ [(resolveSegs p, ⟨EntryKind.file, [], fs.now⟩)] },
        .ok ()) := by
    unfold FS.writeAll
    rw [herr]
    simp [habsent', hne, hparent]
  have hfind1 :
      lookupA (fs.entries ++ [(resolveSegs p, (⟨EntryKind.file, [], fs.now⟩ : FsEntry))])
          (resolveSegs p) = some ⟨EntryKind.file, [], fs.now⟩ := by
    rw [lookupA_append_of_none habsent']
    exact lookupA_singleton_self _ _
  have hopen : File.openFile fs p {} =
      ({ fs with
          entries := fs.entries ++ [(resolveSegs p, ⟨EntryKind.file, [], fs.now⟩)] },
        .ok (createFile p ⟨0, fs.now, EntryKind.file⟩)) := by
    unfold File.openFile
    rw [hstat]
    simp only [isNoEntityError, Bool.not_eq_true, decide_eq_true_eq]
    rw [if_neg (by simp)]
    simp only [Option.getD_none, if_true]
    rw [hwrite]
    unfold FS.stat FS.hostErr FS.find
    simp only [herr', hfind1]
    simp [FsEntry.stats]
  refine ⟨hopen, ?_, ?_, ?_⟩
  · rw [hopen]
    unfold FS.find
    exact hfind1
  · rw [hopen]
    unfold File.text File.bytes FS.readRange FS.hostErr FS.find
    simp only [createFile]
    simp only [herr', hfind1]
    rfl
  · unfold File.openFile
    rw [hstat]
    simp [isNoEntityError]

/-- A filesystem state is well formed when its entry keys are distinct
and every key is a normalized absolute path (all segments valid). -/
def FS.WF (fs : FS) : Prop :=
  (fs.entries.map Prod.fst).Nodup ∧ ∀ pe ∈ fs.entries, ∀ s ∈ pe.1, validSeg s

theorem resolveStep_valid (acc : List String) {s : String} (h : validSeg s) :
    resolveStep acc s = acc ++ [s] := by
  unfold resolveStep
  simp only [validSeg, Bool.and_eq_true, decide_eq_true_eq] at h
  rw [if_neg (by tauto), if_neg (by tauto)]

theorem resolveSegs_append_one (p : Path) {n : String} (h : validSeg n) :
    resolveSegs (p ++ [n]) = resolveSegs p ++ [n] := by
  unfold resolveSegs
  rw [List.foldl_append]
  simpa using resolveStep_valid (p.foldl resolveStep []) h

theorem getLast?_decomp {l : List String} {n : String} (h : l.getLast? = some n) :
    l = l.dropLast ++ [n] := by
  induction l using List.reverseRecOn with
  | nil => simp at h
  | append_singleton l' a _ =>
    rw [List.getLast?_concat] at h
    cases h
    simp

theorem lookupA_of_mem_nodup {α : Type} {l : List (Path × α)} {q : Path} {v : α}
    (hnd : (l.map Prod.fst).Nodup) (hmem : (q, v) ∈ l) :
    lookupA l q = some v := by
  induction l with
  | nil => simp at hmem
  | cons pe rest ih =>
    obtain ⟨p1, v1⟩ := pe
    simp only [List.map_cons, List.nodup_cons] at hnd
    rcases List.mem_cons.1 hmem with h | h
    · cases h
      simp [lookupA]
    · have hne : p1 ≠ q := by
        intro hq
        subst hq
        exact hnd.1 (List.mem_map.2 ⟨(p1, v), h, rfl⟩)
      simp only [lookupA, if_neg hne]
      exact ih hnd.2 h

theorem lookupA_eq_none_of_forall_ne {α : Type} {l : List (Path × α)} {q : Path}
    (h : ∀ pe ∈ l, pe.1 ≠ q) :
    lookupA l q = none := by
  induction l with
  | nil => rfl
  | cons pe rest ih =>
    simp only [lookupA, if_neg (h pe (by simp))]
    exact ih fun pe2 hm => h pe2 (by simp [hm])

theorem childrenOf_mem {ents : List (Path × FsEntry)} {p : Path}
    {nk : String × EntryKind} (h : nk ∈ childrenOf ents p) :
    ∃ ent, (p ++ [nk.1], ent) ∈ ents ∧ ent.kind = nk.2 := by
  unfold childrenOf at h
  obtain ⟨pe, hpe, hg⟩ := List.mem_filterMap.1 h
  cases hlast : pe.1.getLast? with
  | none => rw [hlast] at hg; simp at hg
  | some n =>
    rw [hlast] at hg
    by_cases hdrop : pe.1.dropLast = p
    · simp [hdrop, Prod.ext_iff] at hg
      obtain ⟨h1, h2⟩ := hg
      refine ⟨pe.2, ?_, h2⟩
      have hdec := getLast?_decomp hlast
      rw [← hdrop, ← h1, ← hdec]
      exact hpe
    · simp [hdrop] at hg

/-- Written from the specification's words, for the refinement claim
about `files(pattern)`: the sequence contains exactly the listed
children that are regular files and whose name the pattern accepts, in
the relative order of the unfiltered `entries()` listing, each turned
into a file handle from its own stat. -/
def specFilesList (fs : FS) (dpath : Path) (filter : String → Bool) : List File :=
  (childrenOf fs.entries (resolveSegs dpath)).filterMap fun nk =>
    if nk.2 = EntryKind.file && filter nk.1 then
      match fs.stat (joinSeg dpath nk.1) with
      | .ok st => some (createFile (joinSeg dpath nk.1) st)
      | .error _ => none
    else none

/-- Written from the specification's words, for the refinement claim
about `subdirs(pattern)`: the sequence contains exactly the listed
children that are directories and whose name the pattern accepts, in
the relative order of the unfiltered `entries()` listing. -/
def specSubdirsList (fs : FS) (dpath : Path) (filter : String → Bool) : List Directory :=
  (childrenOf fs.entries (resolveSegs dpath)).filterMap fun nk =>
    if nk.2 = EntryKind.directory && filter nk.1 then
      some (Directory.ofName (joinSeg dpath nk.1))
    else none

theorem filesGo_eq_spec (fs : FS) (dpath : Path) (filter : String → Bool)
    (C : List (String × EntryKind))
    (h : ∀ nk ∈ C, ∃ st, fs.stat (joinSeg dpath nk.1) = .ok st) :
    filesGo fs dpath filter C = .ok (C.filterMap fun nk =>
      if nk.2 = EntryKind.file && filter nk.1 then
        match fs.stat (joinSeg dpath nk.1) with
        | .ok st => some (createFile (joinSeg dpath nk.1) st)
        | .error _ => none
      else none) := by
  induction C with
  | nil => rfl
  | cons nk rest ih =>
    obtain ⟨st, hst⟩ := h nk (by simp)
    have hrest := ih fun nk2 hm => h nk2 (by simp [hm])
    unfold filesGo
    by_cases hcond : (nk.2 = EntryKind.file && filter nk.1) = true
    · rw [if_pos hcond, hst, hrest]
      rw [List.filterMap_cons, if_pos hcond, hst]
      rfl
    · rw [if_neg hcond, hrest, List.filterMap_cons, if_neg hcond]

/-- C4: the sequence produced by `files(pattern)` contains exactly the
children of the directory that are regular files with a name the
pattern accepts, and `subdirs(pattern)` exactly the matching child
directories, each in the relative order of the unfiltered `entries()`
listing; the default pattern accepts every name. -/
theorem c4_files_subdirs_exact (fs : FS) (d : Directory) (filter : String → Bool)
    (hwf : FS.WF fs)
    (hdirerr : fs.hostErr d.path = none)
    (hdent : ∃ dent, fs.find d.path = some dent ∧ dent.kind = EntryKind.directory)
    (hchild : ∀ nk ∈ childrenOf fs.entries (resolveSegs d.path),
      fs.hostErr (joinSeg d.path nk.1) = none) :
    Directory.files fs d filter = .ok (specFilesList fs d.path filter) ∧
    Directory.subdirs fs d filter = .ok (specSubdirsList fs d.path filter) ∧
    ∀ n, defaultFilter n = true := by
  obtain ⟨dent, hdfind, hdkind⟩ := hdent
  have hread : fs.readdir d.path = .ok (childrenOf fs.entries (resolveSegs d.path)) := by
    unfold FS.readdir
    simp [hdirerr, hdfind, hdkind]
  have hstats : ∀ nk ∈ childrenOf fs.entries (resolveSegs d.path),
      ∃ st, fs.stat (joinSeg d.path nk.1) = .ok st := by
    intro nk hnk
    obtain ⟨ent, hmem, _⟩ := childrenOf_mem hnk
    have hnval : validSeg nk.1 := hwf.2 _ hmem nk.1 (by simp)
    have hnne : nk.1 ≠ "" := by
      simp only [validSeg, Bool.and_eq_true, decide_eq_true_eq] at hnval
      exact hnval.1.1
    have hjoin : joinSeg d.path nk.1 = d.path ++ [nk.1] := by
      simp [joinSeg, hnne]
    have hres : resolveSegs (d.path ++ [nk.1]) = resolveSegs d.path ++ [nk.1] :=
      resolveSegs_append_one _ hnval
    refine ⟨ent.stats, ?_⟩
    have herrnk := hchild nk hnk
    unfold FS.hostErr at herrnk
    rw [hjoin] at herrnk
    unfold FS.stat FS.hostErr FS.find
    rw [hjoin, herrnk, hres, lookupA_of_mem_nodup hwf.1 hmem]
  refine ⟨?_, ?_, fun _ => rfl⟩
  · unfold Directory.files Directory.filesWith Directory.entries
    rw [hread]
    exact filesGo_eq_spec fs d.path filter _ hstats
  · unfold Directory.subdirs Directory.entries
    rw [hread]
    rfl

/-- Witness for C4 on a directory with two files and a subdirectory,
with a pattern accepting only one of the file names. -/
theorem c4_witness :
    Directory.files
        ⟨[(["a"], ⟨EntryKind.directory, [], 5⟩), (["a", "x.txt"], ⟨EntryKind.file, [1], 6⟩),
          (["a", "y.md"], ⟨EntryKind.file, [2, 3], 7⟩),
          (["a", "sub"], ⟨EntryKind.directory, [], 8⟩)], [], 9⟩
        (Directory.ofName ["a"]) (fun n => decide (n = "x.txt")) =
      .ok [createFile ["a", "x.txt"] ⟨1, 6, EntryKind.file⟩] ∧
    Directory.subdirs
        ⟨[(["a"], ⟨EntryKind.directory, [], 5⟩), (["a", "x.txt"], ⟨EntryKind.file, [1], 6⟩),
          (["a", "y.md"], ⟨EntryKind.file, [2, 3], 7⟩),
          (["a", "sub"], ⟨EntryKind.directory, [], 8⟩)], [], 9⟩
        (Directory.ofName ["a"]) defaultFilter =
      .ok [Directory.ofName ["a", "sub"]] ∧
    defaultFilter "anything" = true := by
  have h := c4_files_subdirs_exact
    ⟨[(["a"], ⟨EntryKind.directory, [], 5⟩), (["a", "x.txt"], ⟨EntryKind.file, [1], 6⟩),
      (["a", "y.md"], ⟨EntryKind.file, [2, 3], 7⟩),
      (["a", "sub"], ⟨EntryKind.directory, [], 8⟩)], [], 9⟩
    (Directory.ofName ["a"]) (fun n => decide (n = "x.txt"))
    (by constructor <;> decide) (by decide)
    ⟨⟨EntryKind.directory, [], 5⟩, by decide, rfl⟩ (by decide)
  have h2 := c4_files_subdirs_exact
    ⟨[(["a"], ⟨EntryKind.directory, [], 5⟩), (["a", "x.txt"], ⟨EntryKind.file, [1], 6⟩),
      (["a", "y.md"], ⟨EntryKind.file, [2, 3], 7⟩),
      (["a", "sub"], ⟨EntryKind.directory, [], 8⟩)], [], 9⟩
    (Directory.ofName ["a"]) defaultFilter
    (by constructor <;> decide) (by decide)
    ⟨⟨EntryKind.directory, [], 5⟩, by decide, rfl⟩ (by decide)
  refine ⟨?_, ?_, h.2.2 "anything"⟩
  · rw [h.1]
    decide
  · rw [h2.2.1]
    decide

/-- C9: during `files(pattern)` iteration each listed matching regular
file is stat-ed again; when such an entry has vanished between the
listing and that stat (the stat state no longer has it), iteration
throws the host's not-found error out of the sequence instead of
skipping the entry or yielding a sentinel. -/
theorem c9_files_race (fsList fsStat : FS) (d : Directory) (filter : String → Bool)
    (ents : List (String × EntryKind)) (n : String)
    (hlist : Directory.entries fsList d = .ok ents)
    (hn : (n, EntryKind.file) ∈ ents)
    (hf : filter n = true)
    (hmiss : fsStat.stat (joinSeg d.path n) = .error (.errno "ENOENT"))
    (hothers : ∀ m k, (m, k) ∈ ents → k = EntryKind.file → filter m = true → m ≠ n →
      ∃ st, fsStat.stat (joinSeg d.path m) = .ok st) :
    Directory.filesWith fsList fsStat d filter = .error (.errno "ENOENT") := by
  unfold Directory.filesWith
  rw [hlist]
  show filesGo fsStat d.path filter ents = Except.error (.errno "ENOENT")
  clear hlist
  induction ents with
  | nil => simp at hn
  | cons nk rest ih =>
    unfold filesGo
    by_cases hcond : (nk.2 = EntryKind.file && filter nk.1) = true
    · rw [if_pos hcond]
      by_cases heq : nk.1 = n
      · rw [heq, hmiss]
      · have hc2 : nk.2 = EntryKind.file ∧ filter nk.1 = true := by simpa using hcond
        obtain ⟨st, hst⟩ := hothers nk.1 nk.2 (by exact List.mem_cons_self _ _)
          hc2.1 hc2.2 heq
        have hrec := ih
          (by
            rcases List.mem_cons.1 hn with h | h
            · exact absurd (congrArg Prod.fst h.symm) heq
            · exact h)
          (fun m k hm hk hfm hne => hothers m k (by simp [hm]) hk hfm hne)
        simp only [hst]
        rw [hrec]
        rfl
    · rw [if_neg hcond]
      refine ih ?_ fun m k hm hk hfm hne => hothers m k (by simp [hm]) hk hfm hne
      rcases List.mem_cons.1 hn with h | h
      · exfalso
        apply hcond
        rw [← h]
        simpa using hf
      · exact h

/-- Witness for C9: the listing still contains `x.txt`, but the file
has been removed from the filesystem state the stats observe; the
iteration surfaces ENOENT. -/
theorem c9_witness :
    Directory.filesWith
        ⟨[(["a"], ⟨EntryKind.directory, [], 5⟩),
          (["a", "x.txt"], ⟨EntryKind.file, [1], 6⟩)], [], 9⟩
        ⟨[(["a"], ⟨EntryKind.directory, [], 5⟩)], [], 9⟩
        (Directory.ofName ["a"]) defaultFilter =
      .error (.errno "ENOENT") := by
  exact c9_files_race _ _ _ _ [("x.txt", EntryKind.file)] "x.txt"
    (by decide) (by decide) rfl (by decide)
    (fun m k hm hk hfm hne => by
      simp only [List.mem_singleton] at hm
      cases hm
      exact absurd rfl hne)

/-- The precondition under which recursive directory creation can
succeed at a path: it is absent or already a directory. -/
def absentOrDir (fs : FS) (q : Path) : Prop :=
  lookupA fs.entries q = none ∨
    ∃ e, lookupA fs.entries q = some e ∧ e.kind = EntryKind.directory

theorem mkdirGo_spec (chain : List Path) :
    ∀ fs : FS, (∀ q ∈ chain, absentOrDir fs q) →
    ∃ added : List (Path × FsEntry),
      mkdirGo fs chain = ({ fs with entries := fs.entries ++ added }, .ok ()) ∧
      (∀ pe ∈ added, pe.1 ∈ chain ∧ pe.2.kind = EntryKind.directory) ∧
      (∀ q ∈ chain, ∃ e, lookupA (fs.entries ++ added) q = some e ∧
        e.kind = EntryKind.directory) := by
  induction chain with
  | nil =>
    intro fs _
    exact ⟨[], by simp [mkdirGo], by simp, by simp⟩
  | cons q rest ih =>
    intro fs h
    rcases h q (by simp) with hq | ⟨e, he, hek⟩
    · have hpre : ∀ q2 ∈ rest,
          absentOrDir
            { fs with
                entries := fs.entries ++ [(q, ⟨EntryKind.directory, [], fs.now⟩)] } q2 := by
        intro q2 hq2
        rcases h q2 (by simp [hq2]) with h2 | ⟨e2, he2, he2k⟩
        · by_cases hqq : q = q2
          · subst hqq
            exact Or.inr ⟨⟨EntryKind.directory, [], fs.now⟩,
              by rw [lookupA_append_of_none h2]; exact lookupA_singleton_self _ _, rfl⟩
          · exact Or.inl (by
              rw [lookupA_append_of_none h2]
              simp [lookupA, hqq])
        · exact Or.inr ⟨e2, lookupA_append_left he2 _, he2k⟩
      obtain ⟨added', hgo', hkeys', hall'⟩ := ih _ hpre
      have hassoc :
          (fs.entries ++ [(q, (⟨EntryKind.directory, [], fs.now⟩ : FsEntry))]) ++ added' =
            fs.entries ++ ((q, (⟨EntryKind.directory, [], fs.now⟩ : FsEntry)) :: added') := by
        simp
      refine ⟨(q, ⟨EntryKind.directory, [], fs.now⟩) :: added', ?_, ?_, ?_⟩
      · unfold mkdirGo
        rw [hq]  -- reduce absent case; then the recursive call is exposed
        rw [hgo']
        simp
      · intro pe hpe
        rcases List.mem_cons.1 hpe with h1 | h1
        · subst h1
          exact ⟨by simp, rfl⟩
        · exact ⟨by simp [(hkeys' pe h1).1], (hkeys' pe h1).2⟩
      · intro q2 hq2
        rcases List.mem_cons.1 hq2 with h1 | h1
        · subst h1
          refine ⟨⟨EntryKind.directory, [], fs.now⟩, ?_, rfl⟩
          rw [lookupA_append_of_none hq]
          simp [lookupA]
        · obtain ⟨e2, he2, he2k⟩ := hall' q2 h1
          rw [hassoc] at he2
          exact ⟨e2, he2, he2k⟩
    · obtain ⟨added, hgo, hkeys, hall⟩ := ih fs fun q2 hq2 => h q2 (by simp [hq2])
      refine ⟨added, ?_, ?_, ?_⟩
      · unfold mkdirGo
        simp only [he]
        rw [if_pos hek, hgo]
      · exact fun pe hpe => ⟨by simp [(hkeys pe hpe).1], (hkeys pe hpe).2⟩
      · intro q2 hq2
        rcases List.mem_cons.1 hq2 with h1 | h1
        · subst h1
          exact ⟨e, lookupA_append_left he _, hek⟩
        · exact hall q2 h1

theorem ancestorChain_self_mem {p : Path} (h : p ≠ []) : p ∈ ancestorChain p := by
  unfold ancestorChain
  have hlen : 0 < p.length := List.length_pos.2 h
  refine List.mem_map.2 ⟨p.length - 1, List.mem_range.2 (by omega), ?_⟩
  have : p.length - 1 + 1 = p.length := by omega
  rw [this, List.take_length]

theorem ancestorChain_length_le {p q : Path} (h : q ∈ ancestorChain p) :
    q.length ≤ p.length := by
  unfold ancestorChain at h
  obtain ⟨i, _, rfl⟩ := List.mem_map.1 h
  simp [List.length_take]

/-- C8: `save()` opens `f.dirname` with default options before
writing; a missing parent directory chain is therefore created
recursively and the write then proceeds, so `save()` does not fail with
a not-found error merely because the parent directory does not exist:
it succeeds, the parent exists afterwards, and the file's current byte
window is persisted at `f.path`. -/
theorem c8_save_creates_missing_parent (fs : FS) (f : File) (srcEnt : FsEntry)
    (hvalid : ∀ s ∈ f.path, validSeg s)
    (hne : f.path ≠ [])
    (hD : dirnameP f.path ≠ [])
    (hname : f.name = basename f.path)
    (herrD : fs.hostErr (dirnameP f.path) = none)
    (herrT : fs.hostErr f.path = none)
    (herrS : fs.hostErr f.src.filename = none)
    (hsrc : fs.find f.src.filename = some srcEnt)
    (hsrck : srcEnt.kind = EntryKind.file)
    (hDmiss : fs.find (dirnameP f.path) = none)
    (htgt : fs.find f.path = none)
    (hanc : ∀ q ∈ ancestorChain (dirnameP f.path), absentOrDir fs q) :
    ∃ fs2,
      File.save fs f =
        (fs2, .ok (some (createFile f.path
          ⟨((srcEnt.data.drop f.rangeStart).take (f.rangeEnd - f.rangeStart)).length,
            fs.now, EntryKind.file⟩))) ∧
      fs2.dirExists (dirnameP f.path) = true ∧
      fs2.find f.path =
        some ⟨EntryKind.file,
          (srcEnt.data.drop f.rangeStart).take (f.rangeEnd - f.rangeStart), fs.now⟩ := by
  have hvalD : ∀ s ∈ dirnameP f.path, validSeg s := fun s hs =>
    hvalid s (List.mem_of_mem_dropLast hs)
  have hresD : resolveSegs (dirnameP f.path) = dirnameP f.path := resolveSegs_fix _ hvalD
  have hresP : resolveSegs f.path = f.path := resolveSegs_fix _ hvalid
  have hjoin : joinSeg (dirnameP f.path) f.name = f.path := by
    rw [hname]
    exact joinSeg_dirname_basename _ hvalid
  obtain ⟨added, hgo, hkeys, hdirs⟩ := mkdirGo_spec (ancestorChain (dirnameP f.path)) fs hanc
  have hmk : fs.mkdirRec (dirnameP f.path) =
      ({ fs with entries := fs.entries ++ added }, .ok ()) := by
    unfold FS.mkdirRec
    rw [herrD, hresD, hgo]
  obtain ⟨eD, heD, heDk⟩ := hdirs (dirnameP f.path) (ancestorChain_self_mem hD)
  have hstatD : fs.stat (dirnameP f.path) = .error (.errno "ENOENT") := by
    unfold FS.stat
    rw [herrD, hDmiss]
  have hstatD1 :
      ({ fs with entries := fs.entries ++ added } : FS).stat (dirnameP f.path) =
        .ok eD.stats := by
    unfold FS.stat FS.hostErr FS.find
    simp only [hresD]
    have herrD' : lookupA fs.ioErrors (dirnameP f.path) = none := by
      have := herrD
      unfold FS.hostErr at this
      rwa [hresD] at this
    simp only [herrD', heD]
  have hopenD : Directory.openDir fs (dirnameP f.path) {} =
      ({ fs with entries := fs.entries ++ added }, .ok (Directory.ofName (dirnameP f.path))) := by
    unfold Directory.openDir
    rw [hstatD]
    simp only [isNoEntityError, Bool.not_eq_true, decide_eq_true_eq]
    rw [if_neg (by simp)]
    simp only [Option.getD_none, if_true]
    simp only [hmk]
    simp only [hstatD1]
    simp [FsEntry.stats, heDk]
  have hdpath : (Directory.ofName (dirnameP f.path)).path = dirnameP f.path := by
    unfold Directory.ofName
    rw [hresD]
  -- the entry lookup at the target stays empty after the mkdir
  have htgt' : lookupA fs.entries f.path = none := by
    have := htgt
    unfold FS.find at this
    rwa [hresP] at this
  have hlenD : (dirnameP f.path).length + 1 = f.path.length := by
    have hlen : 0 < f.path.length := List.length_pos.2 hne
    unfold dirnameP
    simp only [List.length_dropLast]
    omega
  have haddedne : ∀ pe ∈ added, pe.1 ≠ f.path := by
    intro pe hpe hq
    have hle := ancestorChain_length_le (hkeys pe hpe).1
    rw [hq] at hle
    omega
  have htgt1 : lookupA (fs.entries ++ added) f.path = none := by
    rw [lookupA_append_of_none htgt']
    exact lookupA_eq_none_of_forall_ne haddedne
  have herrT' : lookupA fs.ioErrors f.path = none := by
    have := herrT
    unfold FS.hostErr at this
    rwa [hresP] at this
  -- reading the handle's window from the source succeeds
  have hbytes : File.bytes { fs with entries := fs.entries ++ added } f =
      .ok ((srcEnt.data.drop f.rangeStart).take (f.rangeEnd - f.rangeStart)) := by
    unfold File.bytes FS.readRange FS.hostErr FS.find
    have hsrc' := hsrc
    unfold FS.find at hsrc'
    have herrS' := herrS
    unfold FS.hostErr at herrS'
    simp only [herrS', lookupA_append_left hsrc', if_pos hsrck]
  have hdirEx1 :
      ({ fs with entries := fs.entries ++ added } : FS).dirExists (dirnameP f.path) = true := by
    unfold FS.dirExists
    simp only [hresD, heD]
    simp [heDk]
  have hwa :
      ({ fs with entries := fs.entries ++ added } : FS).writeAll f.path
        (.ok ((srcEnt.data.drop f.rangeStart).take (f.rangeEnd - f.rangeStart))) =
      ({ fs with entries := (fs.entries ++ added) ++
          [(f.path, ⟨EntryKind.file,
            (srcEnt.data.drop f.rangeStart).take (f.rangeEnd - f.rangeStart), fs.now⟩)] },
        .ok ()) := by
    unfold FS.writeAll FS.hostErr
    simp only [hresP, herrT', htgt1]
    rw [if_pos ?hcond]
    case hcond =>
      simp only [Bool.and_eq_true, decide_eq_true_eq, ne_eq]
      exact ⟨hne, hdirEx1⟩
  have hfind2 :
      lookupA ((fs.entries ++ added) ++
          [(f.path, (⟨EntryKind.file,
            (srcEnt.data.drop f.rangeStart).take (f.rangeEnd - f.rangeStart), fs.now⟩ : FsEntry))])
        f.path =
      some ⟨EntryKind.file,
        (srcEnt.data.drop f.rangeStart).take (f.rangeEnd - f.rangeStart), fs.now⟩ := by
    rw [lookupA_append_of_none htgt1]
    exact lookupA_singleton_self _ _
  have hchild :
      Directory.childFile
        { fs with entries := (fs.entries ++ added) ++
            [(f.path, ⟨EntryKind.file,
              (srcEnt.data.drop f.rangeStart).take (f.rangeEnd - f.rangeStart), fs.now⟩)] }
        (Directory.ofName (dirnameP f.path)) f.name =
      .ok (some (createFile f.path
        ⟨((srcEnt.data.drop f.rangeStart).take (f.rangeEnd - f.rangeStart)).length,
          fs.now, EntryKind.file⟩)) := by
    unfold Directory.childFile
    rw [hdpath, hjoin]
    have hstat2 :
        ({ fs with entries := (fs.entries ++ added) ++
            [(f.path, ⟨EntryKind.file,
              (srcEnt.data.drop f.rangeStart).take (f.rangeEnd - f.rangeStart), fs.now⟩)] } :
          FS).stat f.path =
        .ok ⟨((srcEnt.data.drop f.rangeStart).take (f.rangeEnd - f.rangeStart)).length,
          fs.now, EntryKind.file⟩ := by
      unfold FS.stat FS.hostErr FS.find
      simp only [hresP, herrT', hfind2]
      rfl
    rw [hstat2]
    rfl
  refine ⟨{ fs with entries := (fs.entries ++ added) ++
      [(f.path, ⟨EntryKind.file,
        (srcEnt.data.drop f.rangeStart).take (f.rangeEnd - f.rangeStart), fs.now⟩)] },
    ?_, ?_, ?_⟩
  · unfold File.save File.dirname
    rw [hopenD]
    show Directory.write { fs with entries := fs.entries ++ added }
        (Directory.ofName (dirnameP f.path)) f = _
    unfold Directory.write
    rw [hdpath, hjoin, hbytes]
    simp only [hwa, hchild]
  · unfold FS.dirExists
    simp only [hresD, lookupA_append_left heD]
    simp [heDk]
  · unfold FS.find
    rw [hresP]
    exact hfind2

/-- Witness for C8: saving a handle whose parent chain
`["a"] / ["a","b"]` is entirely missing; the parent is created and the
window bytes `[1, 2]` of the three-byte source land at the handle's
path. -/
theorem c8_witness :
    (⟨[(["src.txt"], ⟨EntryKind.file, [1, 2, 3], 4⟩)], [], 9⟩ : FS).find ["a", "b"] =
        none ∧
    ∃ fs2,
      File.save ⟨[(["src.txt"], ⟨EntryKind.file, [1, 2, 3], 4⟩)], [], 9⟩
          ⟨["a", "b", "out.txt"], "out.txt", none, 0, ⟨["src.txt"], 3⟩, 0, 2⟩ =
        (fs2, .ok (some (createFile ["a", "b", "out.txt"] ⟨2, 9, EntryKind.file⟩))) ∧
      fs2.dirExists ["a", "b"] = true ∧
      fs2.find ["a", "b", "out.txt"] = some ⟨EntryKind.file, [1, 2], 9⟩ := by
  refine ⟨by decide, ?_⟩
  have hanc : ∀ q ∈ ancestorChain
      (dirnameP (["a", "b", "out.txt"] : Path)),
      absentOrDir ⟨[(["src.txt"], ⟨EntryKind.file, [1, 2, 3], 4⟩)], [], 9⟩ q := by
    intro q hq
    have hch : ancestorChain (dirnameP (["a", "b", "out.txt"] : Path)) =
        [["a"], ["a", "b"]] := by decide
    rw [hch] at hq
    rcases List.mem_cons.1 hq with h1 | h1
    · subst h1
      exact Or.inl (by decide)
    · rcases List.mem_cons.1 h1 with h2 | h2
      · subst h2
        exact Or.inl (by decide)
      · simp at h2
  obtain ⟨fs2, h1, h2, h3⟩ := c8_save_creates_missing_parent
    ⟨[(["src.txt"], ⟨EntryKind.file, [1, 2, 3], 4⟩)], [], 9⟩
    ⟨["a", "b", "out.txt"], "out.txt", none, 0, ⟨["src.txt"], 3⟩, 0, 2⟩
    ⟨EntryKind.file, [1, 2, 3], 4⟩
    (by decide) (by decide) (by decide) (by decide) (by decide) (by decide)
    (by decide) (by decide) rfl (by decide) (by decide) hanc
  exact ⟨fs2, h1, h2, h3⟩

/-- Witness for C2: creating `["a", "new.txt"]` in a filesystem that
has only the directory `["a"]`. -/
theorem c2_witness :
    (⟨[(["a"], ⟨EntryKind.directory, [], 5⟩)], [], 9⟩ : FS).hostErr ["a", "new.txt"] =
        none ∧
    (⟨[(["a"], ⟨EntryKind.directory, [], 5⟩)], [], 9⟩ : FS).find ["a", "new.txt"] = none ∧
    File.openFile ⟨[(["a"], ⟨EntryKind.directory, [], 5⟩)], [], 9⟩ ["a", "new.txt"] {} =
      (⟨[(["a"], ⟨EntryKind.directory, [], 5⟩),
          (["a", "new.txt"], ⟨EntryKind.file, [], 9⟩)], [], 9⟩,
        .ok (createFile ["a", "new.txt"] ⟨0, 9, EntryKind.file⟩)) ∧
    File.text
        (File.openFile ⟨[(["a"], ⟨EntryKind.directory, [], 5⟩)], [], 9⟩ ["a", "new.txt"] {}).1
        (createFile ["a", "new.txt"] ⟨0, 9, EntryKind.file⟩) = .ok "" ∧
    File.openFile ⟨[(["a"], ⟨EntryKind.directory, [], 5⟩)], [], 9⟩ ["a", "new.txt"]
        ⟨some false⟩ =
      (⟨[(["a"], ⟨EntryKind.directory, [], 5⟩)], [], 9⟩,
        .error (.notFoundErr EntryKind.file ["a", "new.txt"])) := by
  have h := c2_openfile_autocreate ⟨[(["a"], ⟨EntryKind.directory, [], 5⟩)], [], 9⟩
    ["a", "new.txt"] (by decide) (by decide) (by decide) (by decide)
  exact ⟨by decide, by decide, by exact h.1, h.2.2.1, h.2.2.2⟩

end FsLib

namespace Browser

open FsLib

/-- C10: for every existing child of the browser's directory,
`FileBrowser.get` returns a non-null handle whatever the entry's kind
is — including directories — with the kind flags captured as booleans
from the stat; it returns null only when the stat fails with the
not-found error, and any other stat error propagates. -/
theorem c10_browser_get (fs : FS) (b : FileBrowser) (n : String) :
    (∀ ent, fs.hostErr (joinSeg b.directory n) = none →
      fs.find (joinSeg b.directory n) = some ent →
      ∃ bf, FileBrowser.get fs b n = .ok (some bf) ∧
        bf.name = n ∧
        BFile.isDirectory bf = decide (ent.kind = EntryKind.directory) ∧
        BFile.isFile bf = decide (ent.kind = EntryKind.file) ∧
        BFile.isSymbolicLink bf = decide (ent.kind = EntryKind.symlink) ∧
        BFile.isSocket bf = decide (ent.kind = EntryKind.socket) ∧
        BFile.isFIFO bf = decide (ent.kind = EntryKind.fifo)) ∧
    (fs.hostErr (joinSeg b.directory n) = none →
      fs.find (joinSeg b.directory n) = none →
      FileBrowser.get fs b n = .ok none) ∧
    (∀ c, fs.hostErr (joinSeg b.directory n) = some c → c ≠ "ENOENT" →
      FileBrowser.get fs b n = .error (.errno c)) := by
  refine ⟨?_, ?_, ?_⟩
  · intro ent herr hfind
    have hstat : fs.stat (joinSeg b.directory n) = .ok ent.stats := by
      unfold FS.stat
      rw [herr, hfind]
    refine ⟨⟨⟨joinSeg b.directory n, ent.stats.size⟩, n,
        ⟨some b.directory, some (decide (ent.stats.kind = EntryKind.directory)),
          some (decide (ent.stats.kind = EntryKind.fifo)),
          some (decide (ent.stats.kind = EntryKind.file)),
          some (decide (ent.stats.kind = EntryKind.socket)),
          some (decide (ent.stats.kind = EntryKind.symlink)),
          some ent.stats.mtimeMs, some (mimeLookup n)⟩,
        0, ent.stats.size⟩, ?_, rfl, ?_, ?_, ?_, ?_, ?_⟩
    · unfold FileBrowser.get
      rw [hstat]
    all_goals
      simp [BFile.isDirectory, BFile.isFile, BFile.isSymbolicLink, BFile.isSocket,
        BFile.isFIFO, FsEntry.stats]
  · intro herr hfind
    unfold FileBrowser.get FS.stat
    rw [herr, hfind]
    simp [isNoEntityError]
  · intro c herr hc
    unfold FileBrowser.get FS.stat
    rw [herr]
    simp [isNoEntityError, hc]

/-- Witness for C10: getting a subdirectory child yields a non-null
handle whose directory flag is set and file flag clear; a missing child
yields null; an injected permission error propagates. -/
theorem c10_witness :
    (∃ bf, FileBrowser.get
        ⟨[(["a"], ⟨EntryKind.directory, [], 5⟩), (["a", "sub"], ⟨EntryKind.directory, [], 6⟩)],
          [], 9⟩ ⟨["a"]⟩ "sub" = .ok (some bf) ∧
      BFile.isDirectory bf = true ∧ BFile.isFile bf = false) ∧
    FileBrowser.get ⟨[(["a"], ⟨EntryKind.directory, [], 5⟩)], [], 9⟩ ⟨["a"]⟩ "sub" =
      .ok none ∧
    FileBrowser.get ⟨[], [(["a", "sub"], "EACCES")], 9⟩ ⟨["a"]⟩ "sub" =
      .error (.errno "EACCES") := by
  refine ⟨?_, ?_, ?_⟩
  · obtain ⟨bf, hget, _, hdir, hfile, _⟩ :=
      (c10_browser_get
        ⟨[(["a"], ⟨EntryKind.directory, [], 5⟩), (["a", "sub"], ⟨EntryKind.directory, [], 6⟩)],
          [], 9⟩ ⟨["a"]⟩ "sub").1 ⟨EntryKind.directory, [], 6⟩ (by decide) (by decide)
    exact ⟨bf, hget, hdir.trans (by decide), hfile.trans (by decide)⟩
  · exact (c10_browser_get _ _ _).2.1 (by decide) (by decide)
  · exact (c10_browser_get _ _ _).2.2 "EACCES" (by decide) (by decide)

end Browser

